import Mathlib

/-!
A verification development for `makeNoiseU.py`, a single-pass script that
perturbs an OpenFOAM velocity field file `0/U` with zero-mean random noise,
reading the cell count from the cell-centre file `0/C`.

The script is embedded shallowly:

* Text is `List Char`.  The three concrete regular expressions of the script
  are embedded as executable scanners.  Each regex involved only uses
  pairwise-disjoint character classes at the points where greedy repetition
  stops (`\s`, `\d`, `[eE0-9+\-.]`, `[^)]` against the literal that follows),
  so matching is deterministic and no general backtracking engine is needed;
  the one lazy repetition (`[\s\S]*?`) is embedded as a left-to-right search
  for the earliest position where its continuation matches.
* `numpy.random.default_rng(seed)` is a deterministic generator; its standard
  normal stream is modelled as a pure function `g : Nat → Nat → ℚ` where
  `g seed i` is the `i`-th draw of the stream for `seed`.  The first call
  `standard_normal(n)` consumes draws `0..n-1`, the second call `n..2n-1`.
  Real (float64) arithmetic is idealised as exact rational arithmetic.
* The two `write_text` calls are recorded as an ordered list of
  `(path, contents)` events.
-/

namespace MakeNoiseU

/-- Python regex class `\s` (ASCII range): space, tab, newline, VT, FF, CR. -/
def isSpace (c : Char) : Bool :=
  c.toNat = 32 || c.toNat = 9 || c.toNat = 10 || c.toNat = 13 || c.toNat = 11 || c.toNat = 12

/-- Python regex class `\d` (ASCII): the characters `0`-`9`. -/
def isDigitChar (c : Char) : Bool := 48 ≤ c.toNat && c.toNat ≤ 57

/-- The character class `[eE0-9\+\-\.]` used by the vector-extraction regex
(line 61): `e`, `E`, digits, `+`, `-`, `.`. -/
def isNumChar (c : Char) : Bool :=
  isDigitChar c || c.toNat = 101 || c.toNat = 69 || c.toNat = 43 || c.toNat = 45 || c.toNat = 46

/-- Match a fixed literal character sequence at the head of the input,
returning the rest. -/
def expectLit : List Char → List Char → Option (List Char)
  | [], l => some l
  | _ :: _, [] => none
  | p :: ps, c :: cs => if c = p then expectLit ps cs else none

/-- Match one fixed character at the head of the input. -/
def expectChar (x : Char) : List Char → Option (List Char)
  | [] => none
  | c :: cs => if c = x then some cs else none

/-- `\s+` when the token after it starts with a non-space character: the
greedy maximal run is the only possible match. -/
def ws1 : List Char → Option (List Char)
  | [] => none
  | c :: cs => if isSpace c then some (List.dropWhile isSpace cs) else none

/-- `\s*\n` when the token after it starts with a non-space character: with
backtracking this matches exactly when the maximal whitespace run is nonempty
and its last character is a newline. -/
def wsNl (l : List Char) : Option (List Char) :=
  if (List.takeWhile isSpace l).getLast? = some '\n' then some (List.dropWhile isSpace l)
  else none

/-- `[eE0-9\+\-\.]+` when the token after it starts with a character outside
the class: the greedy maximal run is the only possible match. -/
def num1 : List Char → Option (List Char)
  | [] => none
  | c :: cs => if isNumChar c then some (List.dropWhile isNumChar cs) else none

/-- Decimal value of a digit run, as `int(m.group(1))` computes it. -/
def natOfDigits (ds : List Char) : Nat := ds.foldl (fun a c => 10 * a + (c.toNat - 48)) 0

/-- `(\d+)`: a nonempty digit run (greedy), returning its value and the rest. -/
def digits1 : List Char → Option (Nat × List Char)
  | [] => none
  | c :: cs =>
    if isDigitChar c then
      some (natOfDigits ((c :: cs).takeWhile isDigitChar), List.dropWhile isDigitChar cs)
    else none

def ifLit : List Char := "internalField".data

/-- The header pattern of line 54,
`internalField\s+nonuniform\s+List<vector>\s*\n(\d+)\s*\n\(`, tried at one
fixed position; returns the captured cell count. -/
def headerAt (l : List Char) : Option Nat :=
  (expectLit ifLit l).bind fun l1 =>
  (ws1 l1).bind fun l2 =>
  (expectLit "nonuniform".data l2).bind fun l3 =>
  (ws1 l3).bind fun l4 =>
  (expectLit "List<vector>".data l4).bind fun l5 =>
  (wsNl l5).bind fun l6 =>
  (digits1 l6).bind fun p =>
  (wsNl p.2).bind fun l7 =>
  (expectChar '(' l7).map fun _ => p.1

/-- `re.search` of the header pattern: try every position left to right,
first success wins. -/
def findHeader : List Char → Option Nat
  | [] => none
  | c :: cs =>
    match headerAt (c :: cs) with
    | some n => some n
    | none => findHeader cs

/-- Python `txt.split(pat, 1)[1]`: the suffix after the first occurrence of
`pat` (`none` when `pat` does not occur). -/
def splitAfter (pat : List Char) : List Char → Option (List Char)
  | [] => none
  | c :: cs =>
    if List.isPrefixOf pat (c :: cs) then some (List.drop pat.length (c :: cs))
    else splitAfter pat cs

/-- Line 60: everything after the first occurrence of `internalField` in the
cell-centre file (the script indexes `[1]` only after the header matched, so
the occurrence exists on every path that reaches this point). -/
def blockAfterIF (txtC : List Char) : List Char := (splitAfter ifLit txtC).getD []

/-- The vector pattern of line 61 after its opening parenthesis:
`\s*([eE0-9\+\-\.]+)\s+([eE0-9\+\-\.]+)\s+([eE0-9\+\-\.]+)\s*\)`.
The classes `\s` and `[eE0-9\+\-\.]` are disjoint and `)` is in neither, so
the greedy runs are forced and matching is deterministic. -/
def matchTupleBody (l : List Char) : Option (List Char) :=
  (num1 (List.dropWhile isSpace l)).bind fun l1 =>
  (ws1 l1).bind fun l2 =>
  (num1 l2).bind fun l3 =>
  (ws1 l3).bind fun l4 =>
  (num1 l4).bind fun l5 =>
  expectChar ')' (List.dropWhile isSpace l5)

/-- `len(re.findall(vectorPattern, block))`.  A match starts at `(` and its
span contains no further `(`, so matches can never nest or overlap and
counting a candidate at every position equals `findall`'s non-overlapping
count. -/
def countVecs : List Char → Nat
  | [] => 0
  | c :: cs =>
    (if c = '(' then (if (matchTupleBody cs).isSome then 1 else 0) else 0) + countVecs cs

/-- The decimal digit character of `d % 10`. -/
def toDigitChar (d : Nat) : Char := Char.ofNat (48 + d % 10)

/-- Decimal digits of a natural number, most significant first (fuel-driven;
`fuel = n + 1` always suffices since the argument shrinks tenfold). -/
def natDigitsAux : Nat → Nat → List Char
  | 0, _ => []
  | fuel + 1, n => if n < 10 then [toDigitChar n] else natDigitsAux fuel (n / 10) ++ [toDigitChar n]

def natDigits (n : Nat) : List Char := natDigitsAux (n + 1) n

/-- Number of decimal digits of a natural number. -/
def decLenAux : Nat → Nat → Nat
  | 0, _ => 0
  | fuel + 1, n => if n < 10 then 1 else decLenAux fuel (n / 10) + 1

def decLen (n : Nat) : Nat := decLenAux (n + 1) n

/-- The eight fraction digits of a nine-digit mantissa `m` (most significant
digit excluded), as printed by `%.8e`. -/
def frac8 (m : Nat) : List Char :=
  [toDigitChar (m / 10000000), toDigitChar (m / 1000000), toDigitChar (m / 100000),
   toDigitChar (m / 10000), toDigitChar (m / 1000), toDigitChar (m / 100),
   toDigitChar (m / 10), toDigitChar m]

/-- Exponent digits: at least two, zero-padded, as printed by `%.8e`. -/
def expDigits (k : Nat) : List Char :=
  if k < 100 then [toDigitChar (k / 10), toDigitChar k] else natDigits k

/-- The exponent field `e±dd` of `%.8e` (sign always printed). -/
def expPart (e : ℤ) : List Char := (if e < 0 then '-' else '+') :: expDigits e.natAbs

/-- Scientific-notation core `d.ddddddddePP` for a nine-digit mantissa `m`
and exponent `e`. -/
def sciCore (m : Nat) (e : ℤ) : List Char :=
  toDigitChar (m / 100000000) :: '.' :: (frac8 m ++ 'e' :: expPart e)

/-- Decimal exponent of the positive rational `p / d`: the unique `e` with
`10 ^ e ≤ p / d < 10 ^ (e + 1)`, computed with integer arithmetic from the
digit counts of `p` and `d`. -/
def expOfPQ (p d : Nat) : ℤ :=
  let e0 : ℤ := (decLen p : ℤ) - (decLen d : ℤ)
  if 0 ≤ e0 then (if 10 ^ e0.toNat * d ≤ p then e0 else e0 - 1)
  else (if d ≤ p * 10 ^ (-e0).toNat then e0 else e0 - 1)

/-- Round the nonnegative rational `num / den` to the nearest integer, ties
to even: the rounding applied by `%.8e` formatting. -/
def rndHalfEvenPQ (num den : Nat) : Nat :=
  if 2 * (num % den) < den then num / den
  else if den < 2 * (num % den) then num / den + 1
  else if num / den % 2 = 0 then num / den else num / den + 1

/-- Nine-digit mantissa and exponent for formatting the positive rational
`p / d` with `%.8e`: `m = round(p/d * 10^(8-e))`, carrying into the exponent
when rounding overflows to `10^9`. -/
def mantExpPQ (p d : Nat) : Nat × ℤ :=
  let e := expOfPQ p d
  let k : ℤ := 8 - e
  let m :=
    if 0 ≤ k then rndHalfEvenPQ (p * 10 ^ k.toNat) d
    else rndHalfEvenPQ p (d * 10 ^ (-k).toNat)
  if m = 1000000000 then (100000000, e + 1) else (m, e)

/-- Python `f"{x:.8e}"` on the exact rational value `q` (line 78). -/
def fmt8e (q : ℚ) : List Char :=
  if q = 0 then sciCore 0 0
  else
    (if q < 0 then ['-'] else []) ++
      sciCore (mantExpPQ q.num.natAbs q.den).1 (mantExpPQ q.num.natAbs q.den).2

/-- `x - x.mean()` applied elementwise (lines 70-71); numpy's `mean` is
`sum / length`. -/
def centered (xs : List ℚ) : List ℚ := xs.map (fun x => x - xs.sum / (xs.length : ℚ))

/-- Lines 65-75: the rows of the array `U`.  `np.ones((n, 3))` fixes the
first column to `1`; columns 1 and 2 receive the amplitude-scaled re-centred
standard-normal draws `Uy` and `Uz`. -/
def mkU (g : Nat → Nat → ℚ) (seedv : Nat) (ampv : ℚ) (n : Nat) : List (ℚ × ℚ × ℚ) :=
  let uy := centered ((List.range n).map (fun i => g seedv i))
  let uz := centered ((List.range n).map (fun i => g seedv (n + i)))
  List.zipWith (fun y z => ((1 : ℚ), ampv * y, ampv * z)) uy uz

/-- One line `f"({u[0]:.8e} {u[1]:.8e} {u[2]:.8e})"` of `Ulist` (line 78). -/
def tupleLine (t : ℚ × ℚ × ℚ) : List Char :=
  '(' :: (fmt8e t.1 ++ ' ' :: (fmt8e t.2.1 ++ ' ' :: (fmt8e t.2.2 ++ [')'])))

/-- Python `"\n".join`. -/
def joinNL : List (List Char) → List Char
  | [] => []
  | [x] => x
  | x :: y :: xs => x ++ '\n' :: joinNL (y :: xs)

/-- `Ulist` (line 78). -/
def uListOf (g : Nat → Nat → ℚ) (seedv : Nat) (ampv : ℚ) (n : Nat) : List Char :=
  joinNL ((mkU g seedv ampv n).map tupleLine)

/-- The `new_internal` f-string of lines 79-85. -/
def newInternal (g : Nat → Nat → ℚ) (seedv : Nat) (ampv : ℚ) (n : Nat) : List Char :=
  "internalField   nonuniform List<vector>\n".data ++ natDigits n ++
    "\n(\n".data ++ uListOf g seedv ampv n ++ "\n);\n".data

/-- `\([^\)]+\)`: an opening parenthesis, a nonempty run of non-`)`
characters (greedy, forced since `)` terminates it), and `)`. -/
def parenNonEmpty : List Char → Option (List Char)
  | [] => none
  | c :: cs =>
    if c = '(' then
      match cs with
      | [] => none
      | d :: ds =>
        if d = ')' then none
        else
          match List.dropWhile (fun x => !(x = ')')) ds with
          | ')' :: rest => some rest
          | _ => none
    else none

/-- `\s*;`. -/
def semiAfterWs (l : List Char) : Option (List Char) := expectChar ';' (List.dropWhile isSpace l)

/-- The `uniform` alternative of the primary pattern (line 93) after
`internalField\s+`: `uniform\s+\([^\)]+\)` followed by the final `\s*;`. -/
def primaryUniform (l : List Char) : Option (List Char) :=
  (expectLit "uniform".data l).bind fun l1 =>
  (ws1 l1).bind fun l2 =>
  (parenNonEmpty l2).bind fun l3 =>
  semiAfterWs l3

/-- `\)\s*\)\s*;` of the `nonuniform` alternative followed by the final
`\s*;` of line 93: `)`, `)`, `;`, `;` separated by optional whitespace. -/
def closeSeq2 (l : List Char) : Option (List Char) :=
  (expectChar ')' l).bind fun l1 =>
  (expectChar ')' (List.dropWhile isSpace l1)).bind fun l2 =>
  (expectChar ';' (List.dropWhile isSpace l2)).bind fun l3 =>
  expectChar ';' (List.dropWhile isSpace l3)

/-- The lazy `[\s\S]*?` followed by `closeSeq2`: the earliest position where
the continuation matches wins. -/
def lazyClose : List Char → Option (List Char)
  | [] => none
  | c :: cs =>
    match closeSeq2 (c :: cs) with
    | some r => some r
    | none => lazyClose cs

/-- The `nonuniform` alternative of the primary pattern (line 93) after
`internalField\s+`:
`nonuniform\s+List<vector>\s*\n\d+\s*\n\([\s\S]*?\)\s*\)\s*;` followed by the
final `\s*;`. -/
def primaryNonuniform (l : List Char) : Option (List Char) :=
  (expectLit "nonuniform".data l).bind fun l1 =>
  (ws1 l1).bind fun l2 =>
  (expectLit "List<vector>".data l2).bind fun l3 =>
  (wsNl l3).bind fun l4 =>
  (digits1 l4).bind fun p =>
  (wsNl p.2).bind fun l5 =>
  (expectChar '(' l5).bind fun l6 =>
  lazyClose l6

/-- The primary replacement pattern (line 93) at one fixed position.  The two
alternatives start with the distinct literals `uniform` and `nonuniform`, so
at most one can apply. -/
def matchPrimaryAt (l : List Char) : Option (List Char) :=
  (expectLit ifLit l).bind fun l1 =>
  (ws1 l1).bind fun l2 =>
  match primaryUniform l2 with
  | some r => some r
  | none => primaryNonuniform l2

/-- `re.subn(primary, repl, txt, count=1)`: replace the leftmost match;
`none` when there is no match (`nsubs == 0`). -/
def subnP (repl : List Char) : List Char → Option (List Char)
  | [] => none
  | c :: cs =>
    match matchPrimaryAt (c :: cs) with
    | some rest => some (repl ++ rest)
    | none => (subnP repl cs).map (fun t => c :: t)

/-- The secondary pattern (line 103)
`internalField\s+uniform\s+\([^\)]+\);\s*` at one fixed position; the
trailing whitespace is part of the match and is consumed. -/
def matchSecondaryAt (l : List Char) : Option (List Char) :=
  (expectLit ifLit l).bind fun l1 =>
  (ws1 l1).bind fun l2 =>
  (expectLit "uniform".data l2).bind fun l3 =>
  (ws1 l3).bind fun l4 =>
  (parenNonEmpty l4).bind fun l5 =>
  (expectChar ';' l5).map fun l6 => List.dropWhile isSpace l6

/-- `re.subn(secondary, repl, txt, count=1)`. -/
def subnS (repl : List Char) : List Char → Option (List Char)
  | [] => none
  | c :: cs =>
    match matchSecondaryAt (c :: cs) with
    | some rest => some (repl ++ rest)
    | none => (subnS repl cs).map (fun t => c :: t)

/-- Python `str.strip()`. -/
def strip (l : List Char) : List Char :=
  ((List.dropWhile isSpace l).reverse.dropWhile isSpace).reverse

/-- `pathlib.Path.with_suffix`: replace the final suffix of the last path
component, or append the new suffix when the name has none (a leading dot
does not start a suffix). -/
def withSuffix (p suf : List Char) : List Char :=
  let rev := p.reverse
  let revName := rev.takeWhile (fun c => !(c = '/'))
  let revDir := rev.dropWhile (fun c => !(c = '/'))
  match List.dropWhile (fun c => !(c = '.')) revName with
  | '.' :: rest => if rest = [] then p ++ suf else (rest ++ revDir).reverse ++ suf
  | _ => p ++ suf

/-- The field file path `0/U` relative to the case root. -/
def uPathL : List Char := "0/U".data

/-- Line 117: `Ufile.with_suffix(".bak")`. -/
def bakPathL : List Char := withSuffix uPathL ".bak".data

/-- The three fatal error kinds of the script (lines 56, 63, 111). -/
inductive RunError where
  | parseC : RunError
  | countMismatch : Nat → Nat → RunError
  | noPattern : RunError
deriving DecidableEq

/-- Outcome of a run: the `write_text` calls in program order, and the error
that aborted the run, if any. -/
structure RunResult where
  writes : List (List Char × List Char)
  err : Option RunError
deriving DecidableEq

/-- `main()` from line 54 on, given the contents of `0/U` and `0/C` (the
existence checks of lines 41-48 have passed once both texts are available).
Lines 116-119 first write the backup, then overwrite the field file. -/
def run (g : Nat → Nat → ℚ) (seedv : Nat) (ampv : ℚ) (txtU txtC : List Char) : RunResult :=
  match findHeader txtC with
  | none => ⟨[], some RunError.parseC⟩
  | some nCells =>
    if countVecs (blockAfterIF txtC) < nCells then
      ⟨[], some (RunError.countMismatch (countVecs (blockAfterIF txtC)) nCells)⟩
    else
      match subnP (strip (newInternal g seedv ampv nCells) ++ ['\n']) txtU with
      | some txtU2 => ⟨[(bakPathL, txtU), (uPathL, txtU2)], none⟩
      | none =>
        match subnS (newInternal g seedv ampv nCells) txtU with
        | some txtU2 => ⟨[(bakPathL, txtU), (uPathL, txtU2)], none⟩
        | none => ⟨[], some RunError.noPattern⟩

/-- The `amp` knob of line 33 (`0.1`). -/
def ampKnob : ℚ := 1 / 10

/-- The `seed` knob of line 34. -/
def seedKnob : Nat := 7

/-- Final contents of the file at `path` after a list of writes, starting
from `init`. -/
def applyWrites (path init : List Char) (evs : List (List Char × List Char)) : List Char :=
  evs.foldl (fun acc e => if e.1 = path then e.2 else acc) init

/-- numpy `mean`. -/
def meanOf (xs : List ℚ) : ℚ := xs.sum / (xs.length : ℚ)

/-- The internal-data block a run generates for a given cell-centre file:
defined whenever the header parses, and depending on the file only through
the parsed cell count. -/
def newInternalOfC (g : Nat → Nat → ℚ) (seedv : Nat) (ampv : ℚ) (txtC : List Char) :
    Option (List Char) :=
  (findHeader txtC).map (newInternal g seedv ampv)

/-- All formatted numeric values written into the internal-data block, in
order. -/
def writtenValueStrings (g : Nat → Nat → ℚ) (seedv : Nat) (ampv : ℚ) (n : Nat) :
    List (List Char) :=
  ((mkU g seedv ampv n).map (fun t => [fmt8e t.1, fmt8e t.2.1, fmt8e t.2.2])).flatten

/-- Whether an outcome is the count-mismatch error. -/
def isCountErr : Option RunError → Bool
  | some (RunError.countMismatch _ _) => true
  | _ => false

/-- `true` for every character other than `.`. -/
def notDot (c : Char) : Bool := !(c.toNat = 46)

/-- `true` for every character other than `e`. -/
def notE (c : Char) : Bool := !(c.toNat = 101)

/-- Number of digits after the decimal point and before the exponent marker
in a formatted value. -/
def fracDigits (l : List Char) : Nat :=
  (((List.dropWhile notDot l).drop 1).takeWhile notE).length

/-- Number of significant digits of a value formatted in scientific
notation: all digit characters of the mantissa. -/
def sigDigits (l : List Char) : Nat :=
  ((l.takeWhile notE).filter isDigitChar).length

/-- A zero noise stream, used to instantiate theorems at concrete inputs. -/
def gZero : Nat → Nat → ℚ := fun _ _ => 0

/-- A well-formed cell-centre file declaring and containing two vectors. -/
def cGood2 : List Char :=
  "internalField nonuniform List<vector>\n2\n(\n(0 0 0)\n(0.1 0.2 0.3)\n);\n".data

/-- Another well-formed cell-centre file with two (different) vectors. -/
def cGood2b : List Char :=
  "internalField nonuniform List<vector>\n2\n(\n(7 7 7)\n(8 8 8)\n);\n".data

/-- A cell-centre file declaring 4 vectors whose body only contains 3. -/
def cBad43 : List Char :=
  "internalField nonuniform List<vector>\n4\n(\n(1 2 3)\n(4 5 6)\n(7 8 9)\n);\n".data

/-- A cell-centre file without the expected header. -/
def cNoHeader : List Char := "FoamFile has no internal data\n".data

/-- A cell-centre file declaring 4 vectors whose internal list contains only
2, with 2 further tuple-shaped groups in a later section. -/
def cScattered : List Char :=
  "internalField nonuniform List<vector>\n4\n(\n(1 2 3)\n(4 5 6)\n);\nboundary (7 8 9) (1 1 1) end\n".data

/-- A cell-centre file declaring 1 vector whose body contains 3. -/
def cSurplus : List Char :=
  "internalField nonuniform List<vector>\n1\n(\n(1 2 3)\n(4 5 6)\n(7 8 9)\n);\n".data

/-- A field file whose internal-data declaration is in uniform form. -/
def uUniform : List Char :=
  "FoamFile\ninternalField   uniform (1 0 0);\n\nboundaryField data\n".data

/-- A field file whose internal-data declaration is in the standard
nonuniform-list form, terminated by `);`. -/
def uNonuniform : List Char :=
  "FoamFile\ninternalField   nonuniform List<vector>\n2\n(\n(1 0 0)\n(1 0 0)\n);\n\nboundaryField data\n".data

/-- A field file whose internal-data declaration matches neither pattern. -/
def uNeither : List Char := "FoamFile\ninternalField weird;\n".data

lemma isSpace_eq_false_of_isNumChar {c : Char} (h : isNumChar c = true) : isSpace c = false := by
  simp only [isNumChar, isDigitChar, Bool.or_eq_true, Bool.and_eq_true, decide_eq_true_eq] at h
  simp only [isSpace, Bool.or_eq_false_iff, decide_eq_false_iff_not]
  omega

lemma ne_lparen_of_isNumChar {c : Char} (h : isNumChar c = true) : ¬ c = '(' := by
  intro hc; subst hc; exact absurd h (by decide)

lemma isDigitChar_toDigitChar (d : Nat) : isDigitChar (toDigitChar d) = true := by
  have h : d % 10 < 10 := Nat.mod_lt d (by norm_num)
  exact (by decide : ∀ k, k < 10 → isDigitChar (Char.ofNat (48 + k)) = true) _ h

lemma isNumChar_of_isDigitChar {c : Char} (h : isDigitChar c = true) : isNumChar c = true := by
  simp [isNumChar, h]

lemma ne_lparen_of_isDigitChar {c : Char} (h : isDigitChar c = true) : ¬ c = '(' :=
  ne_lparen_of_isNumChar (isNumChar_of_isDigitChar h)

lemma dropWhile_append_all {p : Char → Bool} :
    ∀ {a l : List Char}, (∀ c ∈ a, p c = true) →
      List.dropWhile p (a ++ l) = List.dropWhile p l := by
  intro a
  induction a with
  | nil => intro l _; rfl
  | cons x xs ih =>
    intro l h
    rw [List.cons_append, List.dropWhile_cons, if_pos (h x (by simp))]
    exact ih (fun c hc => h c (by simp [hc]))

lemma dropWhile_cons_false {p : Char → Bool} {c : Char} {l : List Char} (h : p c = false) :
    List.dropWhile p (c :: l) = c :: l := by
  rw [List.dropWhile_cons, if_neg]; simp [h]

lemma takeWhile_append_all {p : Char → Bool} :
    ∀ {a l : List Char}, (∀ c ∈ a, p c = true) →
      List.takeWhile p (a ++ l) = a ++ List.takeWhile p l := by
  intro a
  induction a with
  | nil => intro l _; rfl
  | cons x xs ih =>
    intro l h
    rw [List.cons_append, List.takeWhile_cons, if_pos (h x (by simp)), List.cons_append,
      ih (fun c hc => h c (by simp [hc]))]

lemma takeWhile_cons_false {p : Char → Bool} {c : Char} {l : List Char} (h : p c = false) :
    List.takeWhile p (c :: l) = [] := by
  rw [List.takeWhile_cons, if_neg]; simp [h]

lemma num1_cons_false {c : Char} {l : List Char} (h : isNumChar c = false) :
    num1 (c :: l) = none := by
  simp [num1, h]

lemma num1_append {a : List Char} {x : Char} {r : List Char} (ha : a ≠ [])
    (hall : ∀ c ∈ a, isNumChar c = true) (hx : isNumChar x = false) :
    num1 (a ++ x :: r) = some (x :: r) := by
  cases a with
  | nil => exact absurd rfl ha
  | cons c cs =>
    rw [List.cons_append]
    simp only [num1]
    rw [if_pos (hall c (by simp)),
      dropWhile_append_all (fun d hd => hall d (by simp [hd])), dropWhile_cons_false hx]

lemma ws1_space_cons {x : Char} {r : List Char} (hx : isSpace x = false) :
    ws1 (' ' :: x :: r) = some (x :: r) := by
  simp only [ws1]
  rw [if_pos (by decide : isSpace ' ' = true), dropWhile_cons_false hx]

/-- The tuple regex accepts `(A B C)` with single-space separators for any
three nonempty runs over `[eE0-9\+\-\.]`, leaving the rest untouched. -/
lemma matchTupleBody_parts {A B C b : List Char}
    (hA : A ≠ []) (hB : B ≠ []) (hC : C ≠ [])
    (hallA : ∀ c ∈ A, isNumChar c = true) (hallB : ∀ c ∈ B, isNumChar c = true)
    (hallC : ∀ c ∈ C, isNumChar c = true) :
    matchTupleBody (A ++ ' ' :: (B ++ ' ' :: (C ++ ')' :: b))) = some b := by
  obtain ⟨a0, A2, rfl⟩ : ∃ a0 A2, A = a0 :: A2 := by
    cases A with
    | nil => exact absurd rfl hA
    | cons a0 A2 => exact ⟨a0, A2, rfl⟩
  obtain ⟨b0, B2, rfl⟩ : ∃ b0 B2, B = b0 :: B2 := by
    cases B with
    | nil => exact absurd rfl hB
    | cons b0 B2 => exact ⟨b0, B2, rfl⟩
  obtain ⟨c0, C2, rfl⟩ : ∃ c0 C2, C = c0 :: C2 := by
    cases C with
    | nil => exact absurd rfl hC
    | cons c0 C2 => exact ⟨c0, C2, rfl⟩
  have hsa : isSpace a0 = false := isSpace_eq_false_of_isNumChar (hallA a0 (by simp))
  have hsb : isSpace b0 = false := isSpace_eq_false_of_isNumChar (hallB b0 (by simp))
  have hsc : isSpace c0 = false := isSpace_eq_false_of_isNumChar (hallC c0 (by simp))
  simp only [matchTupleBody, List.cons_append]
  rw [dropWhile_cons_false hsa]
  rw [show (a0 :: (A2 ++ ' ' :: (b0 :: (B2 ++ ' ' :: (c0 :: (C2 ++ ')' :: b))))))
        = (a0 :: A2) ++ ' ' :: (b0 :: (B2 ++ ' ' :: (c0 :: (C2 ++ ')' :: b)))) from by
      simp]
  rw [num1_append (by simp) hallA (by decide)]
  simp only [Option.bind]
  rw [ws1_space_cons hsb]
  simp only [Option.bind]
  rw [show (b0 :: (B2 ++ ' ' :: (c0 :: (C2 ++ ')' :: b))))
        = (b0 :: B2) ++ ' ' :: (c0 :: (C2 ++ ')' :: b)) from by simp]
  rw [num1_append (by simp) hallB (by decide)]
  simp only [Option.bind]
  rw [ws1_space_cons hsc]
  simp only [Option.bind]
  rw [show (c0 :: (C2 ++ ')' :: b)) = (c0 :: C2) ++ ')' :: b from by simp]
  rw [num1_append (by simp) hallC (by decide)]
  simp only [Option.bind]
  rw [dropWhile_cons_false (by decide : isSpace ')' = false)]
  simp [expectChar]

lemma countVecs_cons_ne {c : Char} {l : List Char} (h : ¬ c = '(') :
    countVecs (c :: l) = countVecs l := by
  simp [countVecs, h]

lemma countVecs_append_all {a b : List Char} (h : ∀ c ∈ a, ¬ c = '(') :
    countVecs (a ++ b) = countVecs b := by
  induction a with
  | nil => rfl
  | cons x xs ih =>
    rw [List.cons_append, countVecs_cons_ne (h x (by simp))]
    exact ih (fun c hc => h c (by simp [hc]))

lemma countVecs_cons_found {l : List Char} (h : (matchTupleBody l).isSome = true) :
    countVecs ('(' :: l) = 1 + countVecs l := by
  simp [countVecs, h]

lemma countVecs_cons_lparen_none {l : List Char} (h : matchTupleBody l = none) :
    countVecs ('(' :: l) = countVecs l := by
  simp [countVecs, h]

lemma mem_frac8 {m : Nat} {c : Char} (h : c ∈ frac8 m) : isDigitChar c = true := by
  simp only [frac8, List.mem_cons, List.not_mem_nil, or_false] at h
  rcases h with h | h | h | h | h | h | h | h <;> (subst h; exact isDigitChar_toDigitChar _)

lemma mem_natDigitsAux : ∀ (fuel n : Nat), ∀ c ∈ natDigitsAux fuel n, isDigitChar c = true := by
  intro fuel
  induction fuel with
  | zero => intro n c hc; simp [natDigitsAux] at hc
  | succ f ih =>
    intro n c hc
    rw [natDigitsAux] at hc
    by_cases h : n < 10
    · rw [if_pos h] at hc
      simp only [List.mem_cons, List.not_mem_nil, or_false] at hc
      subst hc; exact isDigitChar_toDigitChar n
    · rw [if_neg h] at hc
      rcases List.mem_append.mp hc with h1 | h1
      · exact ih _ _ h1
      · simp only [List.mem_cons, List.not_mem_nil, or_false] at h1
        subst h1; exact isDigitChar_toDigitChar n

lemma mem_natDigits {n : Nat} {c : Char} (h : c ∈ natDigits n) : isDigitChar c = true :=
  mem_natDigitsAux _ _ c h

lemma mem_expPart {e : ℤ} {c : Char} (h : c ∈ expPart e) : isNumChar c = true := by
  simp only [expPart, List.mem_cons] at h
  rcases h with h1 | h1
  · by_cases he : e < 0
    · rw [if_pos he] at h1; subst h1; decide
    · rw [if_neg he] at h1; subst h1; decide
  · simp only [expDigits] at h1
    by_cases hk : e.natAbs < 100
    · rw [if_pos hk] at h1
      simp only [List.mem_cons, List.not_mem_nil, or_false] at h1
      rcases h1 with h2 | h2 <;>
        (subst h2; exact isNumChar_of_isDigitChar (isDigitChar_toDigitChar _))
    · rw [if_neg hk] at h1
      exact isNumChar_of_isDigitChar (mem_natDigits h1)

lemma mem_sciCore {m : Nat} {e : ℤ} {c : Char} (h : c ∈ sciCore m e) : isNumChar c = true := by
  simp only [sciCore, List.mem_cons] at h
  rcases h with h1 | h1
  · subst h1; exact isNumChar_of_isDigitChar (isDigitChar_toDigitChar _)
  rcases h1 with h2 | h2
  · subst h2; decide
  rcases List.mem_append.mp h2 with h3 | h3
  · exact isNumChar_of_isDigitChar (mem_frac8 h3)
  rcases List.mem_cons.mp h3 with h4 | h4
  · subst h4; decide
  · exact mem_expPart h4

lemma fmt8e_allNum {q : ℚ} : ∀ c ∈ fmt8e q, isNumChar c = true := by
  intro c hc
  simp only [fmt8e] at hc
  by_cases h0 : q = 0
  · rw [if_pos h0] at hc; exact mem_sciCore hc
  · rw [if_neg h0] at hc
    rcases List.mem_append.mp hc with h1 | h1
    · by_cases hn : q < 0
      · rw [if_pos hn] at h1
        simp only [List.mem_cons, List.not_mem_nil, or_false] at h1
        subst h1; decide
      · rw [if_neg hn] at h1; simp at h1
    · exact mem_sciCore h1

lemma sciCore_ne_nil (m : Nat) (e : ℤ) : sciCore m e ≠ [] := by
  simp [sciCore]

lemma fmt8e_ne_nil (q : ℚ) : fmt8e q ≠ [] := by
  simp only [fmt8e]
  by_cases h0 : q = 0
  · rw [if_pos h0]; exact sciCore_ne_nil 0 0
  · rw [if_neg h0]
    by_cases hn : q < 0 <;> simp [hn, sciCore]

lemma countVecs_tupleLine (t : ℚ × ℚ × ℚ) (b : List Char) :
    countVecs (tupleLine t ++ b) = 1 + countVecs b := by
  have hshape : tupleLine t ++ b
      = '(' :: (fmt8e t.1 ++ ' ' :: (fmt8e t.2.1 ++ ' ' :: (fmt8e t.2.2 ++ ')' :: b))) := by
    simp [tupleLine]
  rw [hshape]
  have hm : matchTupleBody (fmt8e t.1 ++ ' ' :: (fmt8e t.2.1 ++ ' ' :: (fmt8e t.2.2 ++ ')' :: b)))
      = some b :=
    matchTupleBody_parts (fmt8e_ne_nil _) (fmt8e_ne_nil _) (fmt8e_ne_nil _)
      fmt8e_allNum fmt8e_allNum fmt8e_allNum
  rw [countVecs_cons_found (by rw [hm]; rfl)]
  congr 1
  rw [countVecs_append_all (fun c hc => ne_lparen_of_isNumChar (fmt8e_allNum c hc)),
    countVecs_cons_ne (by decide),
    countVecs_append_all (fun c hc => ne_lparen_of_isNumChar (fmt8e_allNum c hc)),
    countVecs_cons_ne (by decide),
    countVecs_append_all (fun c hc => ne_lparen_of_isNumChar (fmt8e_allNum c hc)),
    countVecs_cons_ne (by decide : ¬ ')' = '(')]

lemma countVecs_joinNL (ts : List (ℚ × ℚ × ℚ)) :
    ∀ b, countVecs (joinNL (ts.map tupleLine) ++ b) = ts.length + countVecs b := by
  induction ts with
  | nil => intro b; simp [joinNL]
  | cons t ts ih =>
    intro b
    cases ts with
    | nil =>
      simp only [List.map, joinNL]
      rw [countVecs_tupleLine]
      simp
    | cons t2 ts2 =>
      simp only [List.map, joinNL]
      rw [List.append_assoc, List.cons_append, countVecs_tupleLine,
        countVecs_cons_ne (by decide : ¬ '\n' = '(')]
      have := ih b
      simp only [List.map] at this
      rw [this]
      simp only [List.length_cons]
      omega

lemma centered_length (xs : List ℚ) : (centered xs).length = xs.length := by
  simp [centered]

lemma mkU_length (g : Nat → Nat → ℚ) (seedv : Nat) (ampv : ℚ) (n : Nat) :
    (mkU g seedv ampv n).length = n := by
  simp [mkU, List.length_zipWith, centered_length]

lemma matchTupleBody_newline_lparen (r : List Char) :
    matchTupleBody ('\n' :: '(' :: r) = none := by
  have e : List.dropWhile isSpace ('\n' :: '(' :: r) = '(' :: r := by
    rw [List.dropWhile_cons, if_pos (by decide : isSpace '\n' = true),
      dropWhile_cons_false (by decide : isSpace '(' = false)]
  simp only [matchTupleBody, e, num1_cons_false (by decide : isNumChar '(' = false)]
  rfl

lemma joinNL_cons_shape (t : ℚ × ℚ × ℚ) (ts : List (ℚ × ℚ × ℚ)) :
    ∃ r, joinNL ((t :: ts).map tupleLine) = tupleLine t ++ r := by
  cases ts with
  | nil => exact ⟨[], by simp [joinNL]⟩
  | cons t2 ts2 => exact ⟨'\n' :: joinNL ((t2 :: ts2).map tupleLine), by simp [joinNL]⟩

/-- The generated internal-data block contains exactly `n` vector tuples, as
counted by the same tuple pattern the extractor uses. -/
lemma countVecs_newInternal (g : Nat → Nat → ℚ) (seedv : Nat) (ampv : ℚ) (n : Nat) :
    countVecs (newInternal g seedv ampv n) = n := by
  rw [newInternal]
  simp only [List.append_assoc]
  rw [countVecs_append_all (by decide :
    ∀ c ∈ "internalField   nonuniform List<vector>\n".data, ¬ c = '(')]
  rw [countVecs_append_all (fun c hc => ne_lparen_of_isDigitChar (mem_natDigits hc))]
  rw [List.cons_append, List.cons_append, List.cons_append, List.nil_append,
    countVecs_cons_ne (by decide : ¬ '\n' = '(')]
  have hnone : matchTupleBody ('\n' :: (uListOf g seedv ampv n ++ ['\n', ')', ';', '\n']))
      = none := by
    rw [uListOf]
    cases hU : mkU g seedv ampv n with
    | nil =>
      rw [show ([] : List (ℚ × ℚ × ℚ)).map tupleLine = [] from rfl]
      decide
    | cons t ts =>
      obtain ⟨r, hr⟩ := joinNL_cons_shape t ts
      rw [hr, tupleLine, List.append_assoc, List.cons_append]
      exact matchTupleBody_newline_lparen _
  rw [countVecs_cons_lparen_none hnone, countVecs_cons_ne (by decide : ¬ '\n' = '(')]
  rw [uListOf, countVecs_joinNL]
  rw [show countVecs ['\n', ')', ';', '\n'] = 0 from by decide]
  rw [mkU_length, Nat.add_zero]

lemma sum_map_sub (xs : List ℚ) (m : ℚ) :
    (xs.map (fun x => x - m)).sum = xs.sum - xs.length * m := by
  induction xs with
  | nil => simp
  | cons a t ih => simp [ih]; ring

lemma sum_map_mul (a : ℚ) (xs : List ℚ) : (xs.map (fun x => a * x)).sum = a * xs.sum := by
  induction xs with
  | nil => simp
  | cons x t ih => simp [ih]; ring

/-- Re-centering by the mean gives an exactly zero sum (the empty case holds
because the sum of no terms is zero). -/
lemma centered_sum (xs : List ℚ) : (centered xs).sum = 0 := by
  rw [centered, sum_map_sub]
  cases xs with
  | nil => simp
  | cons a t =>
    have h : ((a :: t).length : ℚ) ≠ 0 := Nat.cast_ne_zero.mpr (by simp)
    rw [mul_comm, div_mul_cancel₀ _ h, sub_self]

lemma zip_map_snd1 (a : ℚ) :
    ∀ (ys zs : List ℚ), ys.length = zs.length →
      (List.zipWith (fun y z => ((1 : ℚ), a * y, a * z)) ys zs).map (fun t => t.2.1)
        = ys.map (fun y => a * y) := by
  intro ys
  induction ys with
  | nil => intro zs _; simp
  | cons y ys ih =>
    intro zs h
    cases zs with
    | nil => simp at h
    | cons z zs => simp [ih zs (by simpa using h)]

lemma zip_map_snd2 (a : ℚ) :
    ∀ (ys zs : List ℚ), ys.length = zs.length →
      (List.zipWith (fun y z => ((1 : ℚ), a * y, a * z)) ys zs).map (fun t => t.2.2)
        = zs.map (fun z => a * z) := by
  intro ys
  induction ys with
  | nil =>
    intro zs h
    cases zs with
    | nil => simp
    | cons z zs => simp at h
  | cons y ys ih =>
    intro zs h
    cases zs with
    | nil => simp at h
    | cons z zs => simp [ih zs (by simpa using h)]

lemma zip_fst_one (a : ℚ) :
    ∀ (ys zs : List ℚ) (t : ℚ × ℚ × ℚ),
      t ∈ List.zipWith (fun y z => ((1 : ℚ), a * y, a * z)) ys zs → t.1 = 1 := by
  intro ys
  induction ys with
  | nil => intro zs t ht; simp at ht
  | cons y ys ih =>
    intro zs t ht
    cases zs with
    | nil => simp at ht
    | cons z zs =>
      rcases List.mem_cons.mp ht with h1 | h1
      · subst h1; rfl
      · exact ih zs t h1

lemma notDot_of_isDigitChar {c : Char} (h : isDigitChar c = true) : notDot c = true := by
  simp only [isDigitChar, Bool.and_eq_true, decide_eq_true_eq] at h
  simp only [notDot, Bool.not_eq_true', decide_eq_false_iff_not]
  omega

lemma notE_of_isDigitChar {c : Char} (h : isDigitChar c = true) : notE c = true := by
  simp only [isDigitChar, Bool.and_eq_true, decide_eq_true_eq] at h
  simp only [notE, Bool.not_eq_true', decide_eq_false_iff_not]
  omega

lemma takeWhile_notE_sciCore (m : Nat) (e : ℤ) :
    List.takeWhile notE (sciCore m e) = toDigitChar (m / 100000000) :: '.' :: frac8 m := by
  rw [sciCore, List.takeWhile_cons, if_pos (notE_of_isDigitChar (isDigitChar_toDigitChar _)),
    List.takeWhile_cons, if_pos (by decide : notE '.' = true),
    takeWhile_append_all (fun c hc => notE_of_isDigitChar (mem_frac8 hc)),
    takeWhile_cons_false (by decide : notE 'e' = false), List.append_nil]

lemma filter_digits_mantissa (m : Nat) :
    (toDigitChar (m / 100000000) :: '.' :: frac8 m).filter isDigitChar
      = toDigitChar (m / 100000000) :: frac8 m := by
  rw [List.filter_cons, if_pos (isDigitChar_toDigitChar _), List.filter_cons,
    if_neg (by decide), List.filter_eq_self.mpr (fun c hc => mem_frac8 hc)]

lemma frac8_length (m : Nat) : (frac8 m).length = 8 := by
  simp [frac8]

/-- Each formatted value has nine mantissa digit characters: one before the
point and eight after. -/
lemma sigDigits_fmt8e (q : ℚ) : sigDigits (fmt8e q) = 9 := by
  rw [sigDigits, fmt8e]
  by_cases h0 : q = 0
  · rw [if_pos h0, takeWhile_notE_sciCore, filter_digits_mantissa]
    simp [frac8_length]
  · rw [if_neg h0]
    by_cases hn : q < 0
    · rw [if_pos hn, List.singleton_append, List.takeWhile_cons,
        if_pos (by decide : notE '-' = true), takeWhile_notE_sciCore, List.filter_cons,
        if_neg (by decide), filter_digits_mantissa]
      simp [frac8_length]
    · rw [if_neg hn, List.nil_append, takeWhile_notE_sciCore, filter_digits_mantissa]
      simp [frac8_length]

lemma dropWhile_notDot_sciCore (m : Nat) (e : ℤ) :
    List.dropWhile notDot (sciCore m e) = '.' :: (frac8 m ++ 'e' :: expPart e) := by
  rw [sciCore, List.dropWhile_cons, if_pos (notDot_of_isDigitChar (isDigitChar_toDigitChar _)),
    dropWhile_cons_false (by decide : notDot '.' = false)]

/-- Each formatted value has exactly eight digits after the decimal point. -/
lemma fracDigits_fmt8e (q : ℚ) : fracDigits (fmt8e q) = 8 := by
  have core : ∀ (m : Nat) (e : ℤ),
      (((List.dropWhile notDot (sciCore m e)).drop 1).takeWhile notE).length = 8 := by
    intro m e
    rw [dropWhile_notDot_sciCore, List.drop_succ_cons, List.drop_zero,
      takeWhile_append_all (fun c hc => notE_of_isDigitChar (mem_frac8 hc)),
      takeWhile_cons_false (by decide : notE 'e' = false), List.append_nil, frac8_length]
  rw [fracDigits, fmt8e]
  by_cases h0 : q = 0
  · rw [if_pos h0]; exact core 0 0
  · rw [if_neg h0]
    by_cases hn : q < 0
    · rw [if_pos hn, List.singleton_append, List.dropWhile_cons,
        if_pos (by decide : notDot '-' = true)]
      exact core _ _
    · rw [if_neg hn, List.nil_append]
      exact core _ _

/-- Unfolding of `run` once the header has parsed and the count check has
passed. -/
lemma run_after_checks (g : Nat → Nat → ℚ) (seedv : Nat) (ampv : ℚ) (txtU txtC : List Char)
    (n : Nat) (h1 : findHeader txtC = some n) (h2 : ¬ countVecs (blockAfterIF txtC) < n) :
    run g seedv ampv txtU txtC =
      (match subnP (strip (newInternal g seedv ampv n) ++ ['\n']) txtU with
       | some txtU2 => ⟨[(bakPathL, txtU), (uPathL, txtU2)], none⟩
       | none =>
         match subnS (newInternal g seedv ampv n) txtU with
         | some txtU2 => ⟨[(bakPathL, txtU), (uPathL, txtU2)], none⟩
         | none => ⟨[], some RunError.noPattern⟩) := by
  simp only [run, h1]
  rw [if_neg h2]

/-- C1: for every run that completes successfully, the internal-data block
written to the field file contains exactly as many 3-tuples — counted with
the same tuple pattern the extractor uses — as the cell count parsed from the
cell-centre file's `internalField nonuniform List<vector>` header. -/
theorem c1_block_tuple_count (g : Nat → Nat → ℚ) (seedv : Nat) (ampv : ℚ)
    (txtC : List Char) (n : Nat) (h : findHeader txtC = some n) :
    countVecs (newInternal g seedv ampv n) = n :=
  countVecs_newInternal g seedv ampv n

/-- Witness for C1 at a concrete cell-centre file declaring two cells. -/
theorem c1_witness :
    findHeader cGood2 = some 2 ∧ countVecs (newInternal gZero seedKnob ampKnob 2) = 2 :=
  ⟨by decide, c1_block_tuple_count gZero seedKnob ampKnob cGood2 2 (by decide)⟩

/-- C2: for a fixed seed and cell count the generated internal-data text is a
function of the seed and the parsed cell count alone, so two runs given cell
files with the same parsed count produce identical noise text. -/
theorem c2_deterministic_noise (g : Nat → Nat → ℚ) (seedv : Nat) (ampv : ℚ)
    (ca cb : List Char) (n : Nat) (h1 : findHeader ca = some n) (h2 : findHeader cb = some n) :
    newInternalOfC g seedv ampv ca = newInternalOfC g seedv ampv cb := by
  simp [newInternalOfC, h1, h2]

/-- Witness for C2 at two distinct concrete cell-centre files with the same
cell count. -/
theorem c2_witness :
    newInternalOfC gZero seedKnob ampKnob cGood2 = newInternalOfC gZero seedKnob ampKnob cGood2b :=
  c2_deterministic_noise gZero seedKnob ampKnob cGood2 cGood2b 2 (by decide) (by decide)

/-- C3: the first element of every tuple in the generated data is the fixed
constant `1.0`, for every noise stream, seed, amplitude and cell count. -/
theorem c3_first_component_one (g : Nat → Nat → ℚ) (seedv : Nat) (ampv : ℚ) (n : Nat) :
    ∀ t ∈ mkU g seedv ampv n, t.1 = 1 :=
  fun t ht => zip_fst_one ampv _ _ t ht

/-- Witness for C3 at the zero noise stream with one cell. -/
theorem c3_witness :
    ((1 : ℚ), (0 : ℚ), (0 : ℚ)) ∈ mkU gZero seedKnob ampKnob 1 ∧
      (((1 : ℚ), (0 : ℚ), (0 : ℚ)) : ℚ × ℚ × ℚ).1 = 1 :=
  ⟨by with_unfolding_all decide,
   c3_first_component_one gZero seedKnob ampKnob 1 _ (by with_unfolding_all decide)⟩

/-- C4: in exact arithmetic the mean of the second elements over all
generated tuples is zero, and so is the mean of the third elements, because
each noise sequence is re-centred by its own mean before amplitude scaling. -/
theorem c4_zero_mean (g : Nat → Nat → ℚ) (seedv : Nat) (ampv : ℚ) (n : Nat) :
    meanOf ((mkU g seedv ampv n).map (fun t => t.2.1)) = 0 ∧
    meanOf ((mkU g seedv ampv n).map (fun t => t.2.2)) = 0 := by
  have hlen : (centered ((List.range n).map (fun i => g seedv i))).length
      = (centered ((List.range n).map (fun i => g seedv (n + i)))).length := by
    simp [centered_length]
  constructor
  · rw [show mkU g seedv ampv n = List.zipWith (fun y z => ((1 : ℚ), ampv * y, ampv * z))
        (centered ((List.range n).map (fun i => g seedv i)))
        (centered ((List.range n).map (fun i => g seedv (n + i)))) from rfl]
    rw [zip_map_snd1 ampv _ _ hlen, meanOf, sum_map_mul, centered_sum, mul_zero, zero_div]
  · rw [show mkU g seedv ampv n = List.zipWith (fun y z => ((1 : ℚ), ampv * y, ampv * z))
        (centered ((List.range n).map (fun i => g seedv i)))
        (centered ((List.range n).map (fun i => g seedv (n + i)))) from rfl]
    rw [zip_map_snd2 ampv _ _ hlen, meanOf, sum_map_mul, centered_sum, mul_zero, zero_div]

/-- C5: the extractor fails with the parse error whenever the header pattern
is absent, fails with the count-mismatch error whenever fewer tuples are
found than declared, and in particular a cell-centre file declaring 4 tuples
with only 3 present fails with the count-mismatch error recording 3 and 4. -/
theorem c5_extractor_errors :
    (∀ (g : Nat → Nat → ℚ) (seedv : Nat) (ampv : ℚ) (txtU txtC : List Char),
        findHeader txtC = none → run g seedv ampv txtU txtC = ⟨[], some RunError.parseC⟩) ∧
    (∀ (g : Nat → Nat → ℚ) (seedv : Nat) (ampv : ℚ) (txtU txtC : List Char) (n : Nat),
        findHeader txtC = some n → countVecs (blockAfterIF txtC) < n →
        run g seedv ampv txtU txtC
          = ⟨[], some (RunError.countMismatch (countVecs (blockAfterIF txtC)) n)⟩) ∧
    run gZero seedKnob ampKnob uUniform cBad43 = ⟨[], some (RunError.countMismatch 3 4)⟩ := by
  refine ⟨?_, ?_, by decide⟩
  · intro g seedv ampv txtU txtC h
    simp only [run, h]
  · intro g seedv ampv txtU txtC n h1 h2
    simp only [run, h1]
    rw [if_pos h2]

/-- Witness for C5 at a concrete header-less cell-centre file. -/
theorem c5_witness :
    run gZero seedKnob ampKnob uUniform cNoHeader = ⟨[], some RunError.parseC⟩ :=
  c5_extractor_errors.1 gZero seedKnob ampKnob uUniform cNoHeader (by decide)

/-- C6 (code bug): on a field file whose internal-data declaration is in the
standard nonuniform-list form terminated by `);`, the primary pattern does
not match (it demands a second semicolon after `);`), the secondary pattern
does not match either, and the run aborts with the pattern-not-found error —
while the uniform-value form does match the primary pattern and succeeds. -/
theorem c6_primary_rejects_nonuniform :
    subnP (strip (newInternal gZero seedKnob ampKnob 2) ++ ['\n']) uNonuniform = none ∧
    subnS (newInternal gZero seedKnob ampKnob 2) uNonuniform = none ∧
    (run gZero seedKnob ampKnob uNonuniform cGood2).err = some RunError.noPattern ∧
    (run gZero seedKnob ampKnob uUniform cGood2).err = none :=
  ⟨by decide, by decide, by decide, by decide⟩

/-- C7: whenever the header parsed, the count check passed, and neither
replacement pattern matches the field file, the run fails with the
pattern-not-found error and performs no write at all, so both the field file
and the backup path still hold their pre-run contents. -/
theorem c7_no_pattern_error_no_write (g : Nat → Nat → ℚ) (seedv : Nat) (ampv : ℚ)
    (txtU txtC : List Char) (n : Nat)
    (h1 : findHeader txtC = some n) (h2 : ¬ countVecs (blockAfterIF txtC) < n)
    (h3 : subnP (strip (newInternal g seedv ampv n) ++ ['\n']) txtU = none)
    (h4 : subnS (newInternal g seedv ampv n) txtU = none) :
    run g seedv ampv txtU txtC = ⟨[], some RunError.noPattern⟩ ∧
    applyWrites uPathL txtU (run g seedv ampv txtU txtC).writes = txtU ∧
    applyWrites bakPathL txtU (run g seedv ampv txtU txtC).writes = txtU := by
  have h0 : run g seedv ampv txtU txtC = ⟨[], some RunError.noPattern⟩ := by
    rw [run_after_checks g seedv ampv txtU txtC n h1 h2, h3, h4]
  refine ⟨h0, ?_, ?_⟩ <;> (rw [h0]; rfl)

/-- Witness for C7 at a concrete field file matching neither pattern. -/
theorem c7_witness :
    run gZero seedKnob ampKnob uNeither cGood2 = ⟨[], some RunError.noPattern⟩ ∧
    applyWrites uPathL uNeither (run gZero seedKnob ampKnob uNeither cGood2).writes = uNeither ∧
    applyWrites bakPathL uNeither (run gZero seedKnob ampKnob uNeither cGood2).writes = uNeither :=
  c7_no_pattern_error_no_write gZero seedKnob ampKnob uNeither cGood2 2
    (by decide) (by decide) (by decide) (by decide)

/-- C8: after every successful run the write trace is exactly a write of the
pre-run field contents to the backup path — the field path with suffix
`.bak` — followed by the overwrite of the field path. -/
theorem c8_backup_written_first (g : Nat → Nat → ℚ) (seedv : Nat) (ampv : ℚ)
    (txtU txtC : List Char) (h : (run g seedv ampv txtU txtC).err = none) :
    bakPathL = uPathL ++ ".bak".data ∧
    ∃ newU, (run g seedv ampv txtU txtC).writes = [(bakPathL, txtU), (uPathL, newU)] := by
  refine ⟨by decide, ?_⟩
  rcases hf : findHeader txtC with _ | n
  · rw [show run g seedv ampv txtU txtC = ⟨[], some RunError.parseC⟩ from by
      simp only [run, hf]] at h
    simp at h
  · by_cases hlt : countVecs (blockAfterIF txtC) < n
    · rw [show run g seedv ampv txtU txtC
          = ⟨[], some (RunError.countMismatch (countVecs (blockAfterIF txtC)) n)⟩ from by
        simp only [run, hf]; rw [if_pos hlt]] at h
      simp at h
    · have hr := run_after_checks g seedv ampv txtU txtC n hf hlt
      rcases hp : subnP (strip (newInternal g seedv ampv n) ++ ['\n']) txtU with _ | t
      · rcases hs : subnS (newInternal g seedv ampv n) txtU with _ | t2
        · rw [hr, hp, hs] at h
          simp at h
        · rw [hr, hp, hs]
          exact ⟨t2, rfl⟩
      · rw [hr, hp]
        exact ⟨t, rfl⟩

/-- Witness for C8 at a concrete successful run. -/
theorem c8_witness :
    (run gZero seedKnob ampKnob uUniform cGood2).err = none ∧
    (bakPathL = uPathL ++ ".bak".data ∧
      ∃ newU, (run gZero seedKnob ampKnob uUniform cGood2).writes
        = [(bakPathL, uUniform), (uPathL, newU)]) :=
  ⟨by decide, c8_backup_written_first gZero seedKnob ampKnob uUniform cGood2 (by decide)⟩

/-- C9 counterexample: it is not the case that every value written into the
internal-data block is formatted with 8 significant digits; already for one
cell the written value `1.00000000e+00` has 9. -/
theorem c9_counterexample :
    ¬ ∀ v ∈ writtenValueStrings gZero seedKnob ampKnob 1, sigDigits v = 8 := by
  with_unfolding_all decide

/-- C9 (amended): every numeric value written into the new internal-data
block is formatted in scientific notation with 8 digits after the decimal
point, hence 9 significant mantissa digits. -/
theorem c9_formatted_digits (g : Nat → Nat → ℚ) (seedv : Nat) (ampv : ℚ) (n : Nat) :
    ∀ v ∈ writtenValueStrings g seedv ampv n, fracDigits v = 8 ∧ sigDigits v = 9 := by
  intro v hv
  rw [writtenValueStrings] at hv
  rcases List.mem_flatten.mp hv with ⟨l, hl, hvl⟩
  rcases List.mem_map.mp hl with ⟨t, ht, rfl⟩
  rcases List.mem_cons.mp hvl with h | hvl2
  · subst h; exact ⟨fracDigits_fmt8e _, sigDigits_fmt8e _⟩
  rcases List.mem_cons.mp hvl2 with h | hvl3
  · subst h; exact ⟨fracDigits_fmt8e _, sigDigits_fmt8e _⟩
  rcases List.mem_cons.mp hvl3 with h | hvl4
  · subst h; exact ⟨fracDigits_fmt8e _, sigDigits_fmt8e _⟩
  · simp at hvl4

/-- Witness for the amended C9 at the concrete written value `1`. -/
theorem c9_witness :
    fmt8e 1 ∈ writtenValueStrings gZero seedKnob ampKnob 1 ∧
      (fracDigits (fmt8e 1) = 8 ∧ sigDigits (fmt8e 1) = 9) :=
  ⟨by with_unfolding_all decide,
   c9_formatted_digits gZero seedKnob ampKnob 1 (fmt8e 1) (by with_unfolding_all decide)⟩

/-- C10: the count check compares the declared count against tuple-shaped
matches anywhere after the first `internalField` occurrence and accepts any
found count that is at least the declared one: with enough found tuples the
run never raises the count-mismatch error; a file whose internal list is two
tuples short but has two tuple-shaped groups in a later section passes, and
surplus tuples never cause an error. -/
theorem c10_count_check_scope :
    (∀ (g : Nat → Nat → ℚ) (seedv : Nat) (ampv : ℚ) (txtU txtC : List Char) (n : Nat),
        findHeader txtC = some n → ¬ countVecs (blockAfterIF txtC) < n →
        isCountErr (run g seedv ampv txtU txtC).err = false) ∧
    (findHeader cScattered = some 4 ∧ countVecs (blockAfterIF cScattered) = 4 ∧
      (run gZero seedKnob ampKnob uUniform cScattered).err = none) ∧
    (findHeader cSurplus = some 1 ∧ countVecs (blockAfterIF cSurplus) = 3 ∧
      (run gZero seedKnob ampKnob uUniform cSurplus).err = none) := by
  refine ⟨?_, ⟨by decide, by decide, by decide⟩, ⟨by decide, by decide, by decide⟩⟩
  intro g seedv ampv txtU txtC n h1 h2
  rw [run_after_checks g seedv ampv txtU txtC n h1 h2]
  rcases hp : subnP (strip (newInternal g seedv ampv n) ++ ['\n']) txtU with _ | t
  · rcases hs : subnS (newInternal g seedv ampv n) txtU with _ | t2 <;> rfl
  · rfl

/-- Witness for the general part of C10 at a concrete passing run. -/
theorem c10_witness : isCountErr (run gZero seedKnob ampKnob uUniform cGood2).err = false :=
  c10_count_check_scope.1 gZero seedKnob ampKnob uUniform cGood2 2 (by decide) (by decide)

end MakeNoiseU
